import Mathlib

/-!
Verification of the conflict-based dependency scheduler in
`src/runtime/src/parallel_determinism/` (files `types.rs` and `dep_graph.rs`).

The scheduler core is embedded shallowly:
* `Task` mirrors the Rust `Task` struct (the opaque `work` closure is
  omitted: the scheduler never invokes it and no scheduling decision
  depends on it).
* `Task.conflicts_with` mirrors `Task::conflicts_with`.
* `DependencyGraph.from_tasks` mirrors `DependencyGraph::from_tasks`; the
  Rust `HashMap<TaskId, HashSet<TaskId>>` is represented as an association
  list with the same keys, each `HashSet` as a duplicate-free list.
* `DependencyGraph.execution_levels` mirrors
  `DependencyGraph::execution_levels`; the Rust panics
  (`panic!("Circular dependency detected!")` and the panicking `HashMap`
  index `self.dependencies[&task_id]`) are made explicit as the outcomes
  `ExecResult.panicked msg` and `ExecResult.keyNotFound`.
  Iteration over the `remaining` hash set has unspecified order in Rust,
  but membership in a level, the completed set and the remaining set are
  all order-independent, so the sequence of level *sets* computed here is
  the one Rust computes.
-/

namespace ParallelDeterminism

/-- Mirrors `type ResourceId = String` in `types.rs`. -/
abbrev ResourceId := String

/-- Mirrors `pub type TaskId = usize` in `types.rs`. -/
abbrev TaskId := Nat

/-- Mirrors `pub struct Task` in `types.rs`. The `work` closure is omitted:
it is opaque to the scheduler and never consulted by any function modelled
here. -/
structure Task where
  id : TaskId
  name : String
  reads : List ResourceId
  writes : List ResourceId
deriving Repr, DecidableEq

instance : Inhabited Task := ⟨⟨0, "", [], []⟩⟩

/-- Mirrors `Task::conflicts_with` in `types.rs`:
the first loop returns `true` as soon as a read of `self` occurs among
`other`'s writes; the second loop returns `true` as soon as a write of
`self` occurs among `other`'s reads or writes; otherwise `false`. -/
def Task.conflicts_with (self other : Task) : Bool :=
  self.reads.any (fun read => other.writes.contains read) ||
    self.writes.any (fun write =>
      other.reads.contains write || other.writes.contains write)

/-- Mirrors `pub struct DependencyGraph` in `dep_graph.rs`. The field
`dependencies : HashMap<TaskId, HashSet<TaskId>>` is represented as an
association list whose values are duplicate-free lists. -/
structure DependencyGraph where
  tasks : List Task
  dependencies : List (TaskId × List TaskId)

/-- Mirrors `DependencyGraph::from_tasks`: for each position `i` the map
gains an entry at key `i` holding every position `j < i` whose task the
task at `i` conflicts with (`tasks[..i].iter().enumerate()` yields exactly
the pairs `(j, tasks[j])` for `j < i`). -/
def DependencyGraph.from_tasks (tasks : List Task) : DependencyGraph :=
  { tasks := tasks
    dependencies := (List.range tasks.length).map (fun i =>
      (i, (List.range i).filter (fun j =>
        (tasks.getD i default).conflicts_with (tasks.getD j default)))) }

/-- Outcome of `execution_levels`. Rust has no error return here: the two
non-`ok` constructors record the two ways the Rust function can panic
(`panic!` with its message string, and the panicking `HashMap` index
`self.dependencies[&task_id]` on a missing key). -/
inductive ExecResult where
  | ok (levels : List (List TaskId))
  | panicked (msg : String)
  | keyNotFound
deriving Repr, DecidableEq

/-- The dependency set recorded for `id`: the value the Rust expression
`self.dependencies[&task_id]` yields when the key is present. -/
def getDeps (deps : List (TaskId × List TaskId)) (id : TaskId) : List TaskId :=
  (deps.lookup id).getD []

/-- Mirrors `deps.iter().all(|dep| completed.contains(dep))` for `id`. -/
def depsDone (deps : List (TaskId × List TaskId)) (completed : List TaskId)
    (id : TaskId) : Bool :=
  (getDeps deps id).all (fun d => completed.contains d)

/-- The `while !remaining.is_empty()` loop of `execution_levels`.
One iteration: index the dependency map for every remaining id (a missing
key is the index panic), collect `current_level` — every remaining id
whose dependencies are all completed (written out as the `filter` at each
use) — panic when it is empty, otherwise mark the level completed, remove
it from `remaining` and push it. The loop terminates because an iteration
that recurses removes the nonempty level from `remaining`. -/
def levelsAux (deps : List (TaskId × List TaskId))
    (remaining completed : List TaskId) (acc : List (List TaskId)) :
    ExecResult :=
  if remaining.isEmpty then .ok acc.reverse
  else if remaining.any (fun id => (deps.lookup id).isNone) then .keyNotFound
  else if h : (remaining.filter (fun id => depsDone deps completed id)).isEmpty then
    .panicked "Circular dependency detected!"
  else
    levelsAux deps
      (remaining.filter (fun id => !(depsDone deps completed id)))
      (completed ++ remaining.filter (fun id => depsDone deps completed id))
      (remaining.filter (fun id => depsDone deps completed id) :: acc)
termination_by remaining.length
decreasing_by
  refine List.length_filter_lt_length_iff_exists.2 ?_
  have hne : remaining.filter (fun id => depsDone deps completed id) ≠ [] :=
    fun hnil => h (by simp [hnil])
  obtain ⟨x, hx⟩ := List.exists_mem_of_ne_nil _ hne
  rcases List.mem_filter.1 hx with ⟨hxr, hxd⟩
  exact ⟨x, hxr, by simp [hxd]⟩

/-- Mirrors `DependencyGraph::execution_levels`: `remaining` starts as the
set of the tasks' caller-supplied `id` fields (`dedup` models collecting
into a `HashSet`), `completed` and the level list start empty. -/
def DependencyGraph.execution_levels (g : DependencyGraph) : ExecResult :=
  levelsAux g.dependencies (g.tasks.map Task.id).dedup [] []

/-- Precondition shared by several claims: every task's `id` field equals
its position in the input list. -/
def idsMatchPositions (tasks : List Task) : Bool :=
  tasks.map Task.id == List.range tasks.length

/-- The concrete scenario from the spec: A(writes x), B(writes y),
C(reads x, writes z), with ids equal to positions. -/
def exampleTasks : List Task :=
  [ { id := 0, name := "A", reads := [], writes := ["x"] },
    { id := 1, name := "B", reads := [], writes := ["y"] },
    { id := 2, name := "C", reads := ["x"], writes := ["z"] } ]

/-- A task list whose single task carries the `id` field 5, outside the
position range `0 .. N-1` used as keys of the dependency map. -/
def strayIdTasks : List Task :=
  [ { id := 5, name := "X", reads := [], writes := [] } ]

/-- A dependency map injected by hand (the struct fields are public) with
the two-cycle `0 ↔ 1`; both remaining tasks are stuck. -/
def cyclicGraph : DependencyGraph :=
  { tasks := [ { id := 0, name := "A", reads := [], writes := [] },
               { id := 1, name := "B", reads := [], writes := [] } ]
    dependencies := [(0, [1]), (1, [0])] }

/-- A second hand-injected cyclic graph whose stuck set `{0, 1, 2}`
differs from `cyclicGraph`'s `{0, 1}`. -/
def cyclicGraph3 : DependencyGraph :=
  { tasks := [ { id := 0, name := "A", reads := [], writes := [] },
               { id := 1, name := "B", reads := [], writes := [] },
               { id := 2, name := "C", reads := [], writes := [] } ]
    dependencies := [(0, [2]), (1, [0]), (2, [1])] }

/-- Semantic description of `Task.conflicts_with`, in the direction the
code checks it. -/
theorem conflicts_with_eq_true_iff (a b : Task) :
    a.conflicts_with b = true ↔
      (∃ r ∈ a.reads, r ∈ b.writes) ∨
        (∃ w ∈ a.writes, w ∈ b.reads ∨ w ∈ b.writes) := by
  simp [Task.conflicts_with, List.any_eq_true, List.elem_iff]

/-- `conflicts_with` is symmetric (helper shared by several theorems). -/
theorem conflicts_with_symm (a b : Task) :
    a.conflicts_with b = b.conflicts_with a := by
  rw [Bool.eq_iff_iff, conflicts_with_eq_true_iff, conflicts_with_eq_true_iff]
  constructor
  · rintro (⟨r, hr, hw⟩ | ⟨w, hw, hr | hww⟩)
    · exact Or.inr ⟨r, hw, Or.inl hr⟩
    · exact Or.inl ⟨w, hr, hw⟩
    · exact Or.inr ⟨w, hww, Or.inr hw⟩
  · rintro (⟨r, hr, hw⟩ | ⟨w, hw, hr | hww⟩)
    · exact Or.inr ⟨r, hw, Or.inl hr⟩
    · exact Or.inl ⟨w, hr, hw⟩
    · exact Or.inr ⟨w, hww, Or.inr hw⟩

/-- Looking a key up in an association list whose entry at key `x` is
`(x, f x)` yields `f` of the key when the key occurs. -/
lemma lookup_map_pair (f : Nat → List Nat) (l : List Nat) (i : Nat) :
    (l.map (fun x => (x, f x))).lookup i =
      if i ∈ l then some (f i) else none := by
  induction l with
  | nil => simp [List.lookup]
  | cons a t ih =>
    by_cases hia : i = a
    · subst hia
      simp [List.lookup]
    · have hba : (i == a) = false := by
        simpa using hia
      simp [List.lookup, hba, hia, ih, List.mem_cons]

/-- The dependency map built by `from_tasks`, as a function of the key. -/
lemma from_tasks_lookup (tasks : List Task) (i : Nat) :
    (DependencyGraph.from_tasks tasks).dependencies.lookup i =
      if i < tasks.length then
        some ((List.range i).filter (fun j =>
          (tasks.getD i default).conflicts_with (tasks.getD j default)))
      else none := by
  have h := lookup_map_pair (fun i => (List.range i).filter (fun j =>
      (tasks.getD i default).conflicts_with (tasks.getD j default)))
    (List.range tasks.length) i
  simpa [DependencyGraph.from_tasks, List.mem_range] using h

/-- The dependency set `from_tasks` records for an in-range key. -/
lemma from_tasks_getDeps (tasks : List Task) (i : Nat) (h : i < tasks.length) :
    getDeps (DependencyGraph.from_tasks tasks).dependencies i =
      (List.range i).filter (fun j =>
        (tasks.getD i default).conflicts_with (tasks.getD j default)) := by
  simp [getDeps, from_tasks_lookup, h]

/-- If some element of `l` satisfies `p`, filtering `l` by the negation of
`p` strictly shrinks it. -/
lemma length_filter_not_lt (p : Nat → Bool) (l : List Nat)
    (h : l.filter p ≠ []) :
    (l.filter (fun x => !(p x))).length < l.length := by
  refine List.length_filter_lt_length_iff_exists.2 ?_
  obtain ⟨x, hx⟩ := List.exists_mem_of_ne_nil _ h
  rcases List.mem_filter.1 hx with ⟨hxr, hxd⟩
  exact ⟨x, hxr, by simp [hxd]⟩

/-- `depsDone` holds exactly when every recorded dependency is completed. -/
lemma depsDone_iff (deps : List (TaskId × List TaskId))
    (completed : List TaskId) (i : TaskId) :
    depsDone deps completed i = true ↔ ∀ d ∈ getDeps deps i, d ∈ completed := by
  simp [depsDone, List.all_eq_true, List.elem_iff]

/-- A nonempty list of naturals has a least element. -/
lemma exists_min_mem (l : List Nat) (h : l ≠ []) :
    ∃ m ∈ l, ∀ x ∈ l, m ≤ x := by
  induction l with
  | nil => exact absurd rfl h
  | cons a t ih =>
    by_cases ht : t = []
    · subst ht
      refine ⟨a, List.mem_cons_self a [], ?_⟩
      intro x hx
      rcases List.mem_cons.1 hx with rfl | hx'
      · exact Nat.le_refl x
      · exact absurd hx' (List.not_mem_nil x)
    · obtain ⟨m, hm, hmin⟩ := ih ht
      by_cases ham : a ≤ m
      · refine ⟨a, List.mem_cons_self a t, ?_⟩
        intro x hx
        rcases List.mem_cons.1 hx with rfl | hx'
        · exact Nat.le_refl x
        · exact Nat.le_trans ham (hmin x hx')
      · refine ⟨m, List.mem_cons_of_mem a hm, ?_⟩
        intro x hx
        rcases List.mem_cons.1 hx with rfl | hx'
        · exact Nat.le_of_lt (Nat.not_le.1 ham)
        · exact hmin x hx'

/-- Loop invariant for `levelsAux`: when every remaining id has a map
entry, every dependency of a remaining id is either completed or a
strictly smaller remaining id, and `remaining` is duplicate-free and
disjoint from `completed`, the loop returns `ok`, and the produced levels
partition `remaining`, each level being exactly the tasks eligible for
the first time: a task sits in level `k` iff its dependencies are covered
by `completed` plus the levels before `k`, and were not covered earlier. -/
lemma levelsAux_spec (deps : List (TaskId × List TaskId)) :
    ∀ (n : Nat) (remaining completed : List TaskId),
      remaining.length ≤ n →
      (∀ id ∈ remaining, (deps.lookup id).isSome = true) →
      (∀ id ∈ remaining, ∀ d ∈ getDeps deps id,
        d ∈ completed ∨ (d ∈ remaining ∧ d < id)) →
      remaining.Nodup →
      (∀ id ∈ remaining, id ∉ completed) →
      ∀ acc, ∃ levels : List (List TaskId),
        levelsAux deps remaining completed acc = .ok (acc.reverse ++ levels) ∧
        levels.length ≤ remaining.length ∧
        (∀ L ∈ levels, L ≠ [] ∧ L.Nodup) ∧
        (∀ i, i ∈ levels.flatten ↔ i ∈ remaining) ∧
        (∀ k (hk : k < levels.length), ∀ i : TaskId,
          i ∈ levels.get ⟨k, hk⟩ ↔
            (i ∈ remaining ∧
              (∀ d ∈ getDeps deps i,
                d ∈ completed ∨ d ∈ (levels.take k).flatten) ∧
              (∀ k' < k, ¬ ∀ d ∈ getDeps deps i,
                d ∈ completed ∨ d ∈ (levels.take k').flatten))) := by
  intro n
  induction n with
  | zero =>
    intro remaining completed hlen _ _ _ _ acc
    have hrem : remaining = [] := List.length_eq_zero.1 (Nat.le_zero.1 hlen)
    subst hrem
    refine ⟨[], ?_, by simp, by simp, by simp, ?_⟩
    · rw [levelsAux.eq_def]
      simp
    · intro k hk
      simp at hk
  | succ n ih =>
    intro remaining completed hlen hlk hdep hnd hdisj acc
    by_cases hrem : remaining = []
    · subst hrem
      refine ⟨[], ?_, by simp, by simp, by simp, ?_⟩
      · rw [levelsAux.eq_def]
        simp
      · intro k hk
        simp at hk
    · obtain ⟨m, hm, hmin⟩ := exists_min_mem remaining hrem
      have hmdone : depsDone deps completed m = true := by
        rw [depsDone_iff]
        intro d hd
        rcases hdep m hm d hd with h | ⟨hdr, hdm⟩
        · exact h
        · exact absurd hdm (Nat.not_lt.2 (hmin d hdr))
      have hlevelne :
          remaining.filter (fun id => depsDone deps completed id) ≠ [] := by
        intro hnil
        have hmem : m ∈ remaining.filter (fun id => depsDone deps completed id) :=
          List.mem_filter.2 ⟨hm, hmdone⟩
        rw [hnil] at hmem
        exact absurd hmem (List.not_mem_nil m)
      have hany : (remaining.any fun id => (deps.lookup id).isNone) = false := by
        rw [List.any_eq_false]
        intro id hid
        rcases Option.isSome_iff_exists.1 (hlk id hid) with ⟨v, hv⟩
        simp [hv]
      have hrlen :
          (remaining.filter (fun id => !(depsDone deps completed id))).length <
            remaining.length :=
        length_filter_not_lt _ _ hlevelne
      have hlk' : ∀ id ∈ remaining.filter (fun id => !(depsDone deps completed id)),
          (deps.lookup id).isSome = true :=
        fun id hid => hlk id (List.mem_filter.1 hid).1
      have hdep' : ∀ id ∈ remaining.filter (fun id => !(depsDone deps completed id)),
          ∀ d ∈ getDeps deps id,
            d ∈ completed ++ remaining.filter (fun id => depsDone deps completed id) ∨
              (d ∈ remaining.filter (fun id => !(depsDone deps completed id)) ∧
                d < id) := by
        intro id hid d hd
        have hidr : id ∈ remaining := (List.mem_filter.1 hid).1
        rcases hdep id hidr d hd with h | ⟨hdr, hdlt⟩
        · exact Or.inl (List.mem_append.2 (Or.inl h))
        · by_cases hdone : depsDone deps completed d = true
          · exact Or.inl
              (List.mem_append.2 (Or.inr (List.mem_filter.2 ⟨hdr, hdone⟩)))
          · have hfd : depsDone deps completed d = false := by simpa using hdone
            exact Or.inr ⟨List.mem_filter.2 ⟨hdr, by simp [hfd]⟩, hdlt⟩
      have hnd' : (remaining.filter (fun id => !(depsDone deps completed id))).Nodup :=
        hnd.filter _
      have hdisj' : ∀ id ∈ remaining.filter (fun id => !(depsDone deps completed id)),
          id ∉ completed ++ remaining.filter (fun id => depsDone deps completed id) := by
        intro id hid hmem
        have h1 := List.mem_filter.1 hid
        rcases List.mem_append.1 hmem with h | h
        · exact hdisj id h1.1 h
        · have h2 := (List.mem_filter.1 h).2
          have h3 := h1.2
          simp [h2] at h3
      obtain ⟨levels', hrun, hlen', hne', hflat', hchar'⟩ :=
        ih (remaining.filter (fun id => !(depsDone deps completed id)))
          (completed ++ remaining.filter (fun id => depsDone deps completed id))
          (Nat.le_of_lt_succ (Nat.lt_of_lt_of_le hrlen hlen))
          hlk' hdep' hnd' hdisj'
          ((remaining.filter (fun id => depsDone deps completed id)) :: acc)
      refine ⟨(remaining.filter (fun id => depsDone deps completed id)) :: levels',
        ?_, ?_, ?_, ?_, ?_⟩
      · rw [levelsAux.eq_def]
        have hre : remaining.isEmpty = false := by
          simp [List.isEmpty_iff, hrem]
        have hle :
            (remaining.filter (fun id => depsDone deps completed id)).isEmpty = false := by
          simp [List.isEmpty_iff, hlevelne]
        simp only [hre, hany, hle, Bool.false_eq_true, if_false, dite_false]
        rw [hrun]
        simp [List.reverse_cons, List.append_assoc]
      · simp only [List.length_cons]
        omega
      · intro L hL
        rcases List.mem_cons.1 hL with rfl | hL'
        · exact ⟨hlevelne, hnd.filter _⟩
        · exact hne' L hL'
      · intro i
        rw [List.flatten_cons, List.mem_append, hflat' i]
        constructor
        · rintro (h | h)
          · exact (List.mem_filter.1 h).1
          · exact (List.mem_filter.1 h).1
        · intro h
          by_cases hdone : depsDone deps completed i = true
          · exact Or.inl (List.mem_filter.2 ⟨h, hdone⟩)
          · have hfd : depsDone deps completed i = false := by simpa using hdone
            exact Or.inr (List.mem_filter.2 ⟨h, by simp [hfd]⟩)
      · intro k hk i
        cases k with
        | zero =>
          show i ∈ remaining.filter (fun id => depsDone deps completed id) ↔ _
          constructor
          · intro hi
            rcases List.mem_filter.1 hi with ⟨hir, hid⟩
            refine ⟨hir, ?_, ?_⟩
            · intro d hd
              exact Or.inl ((depsDone_iff deps completed i).1 hid d hd)
            · intro k' hk'
              exact absurd hk' (Nat.not_lt_zero k')
          · rintro ⟨hir, hcond, -⟩
            refine List.mem_filter.2 ⟨hir, (depsDone_iff deps completed i).2 ?_⟩
            intro d hd
            rcases hcond d hd with h | h
            · exact h
            · simp at h
        | succ j =>
          have hj : j < levels'.length := by
            simp only [List.length_cons] at hk
            exact Nat.lt_of_succ_lt_succ hk
          have hshift : ∀ (t : Nat) (d : TaskId),
              (d ∈ completed ++ remaining.filter (fun id => depsDone deps completed id) ∨
                d ∈ (levels'.take t).flatten) ↔
              (d ∈ completed ∨
                d ∈ (((remaining.filter (fun id => depsDone deps completed id)) ::
                  levels').take (t + 1)).flatten) := by
            intro t d
            simp [List.take_succ_cons, List.flatten_cons, List.mem_append, or_assoc]
          have hcond : ∀ t : Nat,
              (∀ d ∈ getDeps deps i,
                d ∈ completed ++ remaining.filter (fun id => depsDone deps completed id) ∨
                  d ∈ (levels'.take t).flatten) ↔
              (∀ d ∈ getDeps deps i,
                d ∈ completed ∨
                  d ∈ (((remaining.filter (fun id => depsDone deps completed id)) ::
                    levels').take (t + 1)).flatten) := by
            intro t
            constructor
            · intro h d hd
              exact (hshift t d).1 (h d hd)
            · intro h d hd
              exact (hshift t d).2 (h d hd)
          have hzero :
              (¬ ∀ d ∈ getDeps deps i,
                d ∈ completed ∨
                  d ∈ (((remaining.filter (fun id => depsDone deps completed id)) ::
                    levels').take 0).flatten) ↔
              ¬ (depsDone deps completed i = true) := by
            rw [depsDone_iff]
            simp
          show i ∈ levels'.get ⟨j, hj⟩ ↔ _
          rw [hchar' j hj i]
          constructor
          · rintro ⟨hir', hA', hB'⟩
            rcases List.mem_filter.1 hir' with ⟨hir, hndone⟩
            have hfd : depsDone deps completed i = false := by simpa using hndone
            refine ⟨hir, (hcond j).1 hA', ?_⟩
            intro k' hk'
            cases k' with
            | zero => exact hzero.2 (by simp [hfd])
            | succ j' =>
              intro hA
              exact hB' j' (Nat.lt_of_succ_lt_succ hk') ((hcond j').2 hA)
          · rintro ⟨hir, hA, hB⟩
            have hfd : depsDone deps completed i = false := by
              have hz := hzero.1 (hB 0 (Nat.succ_pos j))
              simpa using hz
            refine ⟨List.mem_filter.2 ⟨hir, by simp [hfd]⟩, (hcond j).2 hA, ?_⟩
            intro k' hk'
            intro hA'
            exact hB (k' + 1) (Nat.succ_lt_succ hk') ((hcond k').1 hA')

/-- Unfolding of the boolean precondition. -/
lemma idsMatchPositions_iff (tasks : List Task) :
    idsMatchPositions tasks = true ↔
      tasks.map Task.id = List.range tasks.length := by
  simp [idsMatchPositions]

/-- Membership in the concatenation of the first `k` levels, by level
index. -/
lemma mem_flatten_take (ls : List (List TaskId)) (k : Nat) (a : TaskId) :
    a ∈ (ls.take k).flatten ↔
      ∃ k', ∃ hk' : k' < ls.length, k' < k ∧ a ∈ ls.get ⟨k', hk'⟩ := by
  induction ls generalizing k with
  | nil => simp
  | cons L ls ih =>
    cases k with
    | zero => simp
    | succ k =>
      rw [List.take_succ_cons, List.flatten_cons, List.mem_append, ih k]
      constructor
      · rintro (h | ⟨k', hk', hkk, hmem⟩)
        · exact ⟨0, Nat.succ_pos _, Nat.succ_pos _, h⟩
        · exact ⟨k' + 1, Nat.succ_lt_succ hk', Nat.succ_lt_succ hkk, hmem⟩
      · rintro ⟨k', hk', hkk, hmem⟩
        cases k' with
        | zero => exact Or.inl hmem
        | succ k' =>
          exact Or.inr
            ⟨k', Nat.lt_of_succ_lt_succ hk', Nat.lt_of_succ_lt_succ hkk, hmem⟩

/-- Summary of `execution_levels` on a graph built by `from_tasks` from a
task list whose `id` fields equal positions: the run returns `ok`, with at
most one level per task, nonempty duplicate-free levels whose union is
`0 .. N-1`, and membership in level `k` characterised as
first-time-eligibility at `k`. -/
lemma execution_levels_spec (tasks : List Task)
    (h : idsMatchPositions tasks = true) :
    ∃ levels : List (List TaskId),
      (DependencyGraph.from_tasks tasks).execution_levels = .ok levels ∧
      levels.length ≤ tasks.length ∧
      (∀ L ∈ levels, L ≠ [] ∧ L.Nodup) ∧
      (∀ i : TaskId, i ∈ levels.flatten ↔ i < tasks.length) ∧
      (∀ k (hk : k < levels.length), ∀ i : TaskId,
        i ∈ levels.get ⟨k, hk⟩ ↔
          (i < tasks.length ∧
            (∀ d ∈ getDeps (DependencyGraph.from_tasks tasks).dependencies i,
              d ∈ (levels.take k).flatten) ∧
            (∀ k' < k,
              ¬ ∀ d ∈ getDeps (DependencyGraph.from_tasks tasks).dependencies i,
                d ∈ (levels.take k').flatten))) := by
  have hmap : tasks.map Task.id = List.range tasks.length :=
    (idsMatchPositions_iff tasks).1 h
  have hrem : (tasks.map Task.id).dedup = List.range tasks.length := by
    rw [hmap, List.dedup_eq_self.2 (List.nodup_range tasks.length)]
  obtain ⟨levels, hrun, hlen, hne, hflat, hchar⟩ :=
    levelsAux_spec (DependencyGraph.from_tasks tasks).dependencies tasks.length
      (List.range tasks.length) []
      (by simp)
      (fun id hid => by
        rw [from_tasks_lookup]
        simp [List.mem_range.1 hid])
      (fun id hid d hd => by
        have hidlt := List.mem_range.1 hid
        rw [from_tasks_getDeps tasks id hidlt] at hd
        have hdlt : d < id := List.mem_range.1 (List.mem_filter.1 hd).1
        exact Or.inr ⟨List.mem_range.2 (Nat.lt_trans hdlt hidlt), hdlt⟩)
      (List.nodup_range tasks.length)
      (fun id _ hmem => absurd hmem (List.not_mem_nil id))
      []
  refine ⟨levels, ?_, ?_, hne, ?_, ?_⟩
  · rw [DependencyGraph.execution_levels]
    rw [show (DependencyGraph.from_tasks tasks).tasks = tasks from rfl]
    rw [hrem, hrun]
    simp
  · simpa using hlen
  · intro i
    rw [hflat i, List.mem_range]
  · intro k hk i
    rw [hchar k hk i]
    simp [List.mem_range]

/-- C5: `conflicts_with a b` is true exactly when a resource read by one
task is written by the other, or both write a common resource; hence a
task pair with disjoint footprints yields `false`, and a read-read
overlap alone never yields `true`. -/
theorem claim5_conflict_semantics (a b : Task) :
    a.conflicts_with b = true ↔
      ((∃ r ∈ a.reads, r ∈ b.writes) ∨ (∃ r ∈ b.reads, r ∈ a.writes) ∨
        ∃ w ∈ a.writes, w ∈ b.writes) := by
  rw [conflicts_with_eq_true_iff]
  constructor
  · rintro (⟨r, hr, hw⟩ | ⟨w, hw, hr | hww⟩)
    · exact Or.inl ⟨r, hr, hw⟩
    · exact Or.inr (Or.inl ⟨w, hr, hw⟩)
    · exact Or.inr (Or.inr ⟨w, hw, hww⟩)
  · rintro (⟨r, hr, hw⟩ | ⟨r, hr, hw⟩ | ⟨w, hw, hww⟩)
    · exact Or.inl ⟨r, hr, hw⟩
    · exact Or.inr ⟨r, hw, Or.inl hr⟩
    · exact Or.inr ⟨w, hw, Or.inr hww⟩

/-- C6: the conflict predicate is symmetric for all tasks, whatever their
read and write sets. -/
theorem claim6_conflict_symmetric (a b : Task) :
    a.conflicts_with b = b.conflicts_with a :=
  conflicts_with_symm a b

/-- C4: for every input task list and every position `i < N`, `from_tasks`
records an entry at key `i` whose members are exactly the positions
`j < i` conflicting with task `i`; consequently every recorded dependency
is strictly smaller than its task. -/
theorem claim4_from_tasks_dependency_map (tasks : List Task) (i : Nat)
    (h : i < tasks.length) :
    ∃ deps, (DependencyGraph.from_tasks tasks).dependencies.lookup i = some deps ∧
      (∀ j : TaskId, j ∈ deps ↔
        (j < i ∧
          (tasks.getD i default).conflicts_with (tasks.getD j default) = true)) ∧
      (∀ j ∈ deps, j < i) := by
  refine ⟨(List.range i).filter (fun j =>
      (tasks.getD i default).conflicts_with (tasks.getD j default)), ?_, ?_, ?_⟩
  · rw [from_tasks_lookup]
    simp [h]
  · intro j
    simp [List.mem_filter, List.mem_range]
  · intro j hj
    exact List.mem_range.1 (List.mem_filter.1 hj).1

/-- Witness for C4 at the spec's concrete scenario, position 2. -/
theorem claim4_witness :
    2 < exampleTasks.length ∧
      ∃ deps, (DependencyGraph.from_tasks exampleTasks).dependencies.lookup 2 =
        some deps := by
  refine ⟨by decide, ?_⟩
  obtain ⟨deps, hdeps, -, -⟩ :=
    claim4_from_tasks_dependency_map exampleTasks 2 (by decide)
  exact ⟨deps, hdeps⟩

/-- C10: the empty input gives an empty dependency map, and execution
returns an empty level sequence without reaching the cycle panic. -/
theorem claim10_empty_input :
    (DependencyGraph.from_tasks []).dependencies = [] ∧
      (DependencyGraph.from_tasks []).execution_levels = ExecResult.ok [] := by
  constructor
  · rfl
  · rw [DependencyGraph.execution_levels, levelsAux.eq_def]
    simp [DependencyGraph.from_tasks]

/-- C9: with `id` fields equal to positions the dependency-map lookup in
`execution_levels` never fails (the missing-key panic is unreachable),
while the one-task input whose `id` field is 5 makes the lookup fail. -/
theorem claim9_lookup_totality :
    (∀ tasks : List Task, idsMatchPositions tasks = true →
      (DependencyGraph.from_tasks tasks).execution_levels ≠
        ExecResult.keyNotFound) ∧
      (DependencyGraph.from_tasks strayIdTasks).execution_levels =
        ExecResult.keyNotFound := by
  constructor
  · intro tasks h
    obtain ⟨levels, hrun, -, -, -, -⟩ := execution_levels_spec tasks h
    rw [hrun]
    intro hcontra
    exact ExecResult.noConfusion hcontra
  · simp +decide [DependencyGraph.execution_levels, levelsAux, strayIdTasks,
      DependencyGraph.from_tasks]

/-- C2, counterexample: on a stuck (cyclic) dependency map the call does
not produce an error value naming the stuck tasks — it hits the Rust
`panic!` with the fixed message `"Circular dependency detected!"`; two
graphs with different stuck sets (`{0, 1}` and `{0, 1, 2}`) produce the
identical outcome, so no stuck task ids are reported. -/
theorem claim2_counterexample :
    cyclicGraph.execution_levels =
        ExecResult.panicked "Circular dependency detected!" ∧
      cyclicGraph3.execution_levels =
        ExecResult.panicked "Circular dependency detected!" := by
  constructor
  · simp +decide [DependencyGraph.execution_levels, levelsAux, cyclicGraph]
  · simp +decide [DependencyGraph.execution_levels, levelsAux, cyclicGraph3]

/-- C2, amended: when no task is runnable while tasks remain (here: every
remaining id has a map entry but a nonempty dependency list, so the very
first scan finds no eligible task), `execution_levels` panics with the
fixed message `"Circular dependency detected!"` — a process-aborting
panic rather than an error value, carrying no stuck task ids. -/
theorem claim2_amended_cycle_panics (g : DependencyGraph)
    (hne : (g.tasks.map Task.id).dedup ≠ [])
    (hlk : ∀ id ∈ (g.tasks.map Task.id).dedup,
      (g.dependencies.lookup id).isSome = true)
    (hstuck : ∀ id ∈ (g.tasks.map Task.id).dedup,
      getDeps g.dependencies id ≠ []) :
    g.execution_levels = ExecResult.panicked "Circular dependency detected!" := by
  rw [DependencyGraph.execution_levels, levelsAux.eq_def]
  have hre : ((g.tasks.map Task.id).dedup).isEmpty = false := by
    simp [List.isEmpty_iff, hne]
  have hany : ((g.tasks.map Task.id).dedup.any fun id =>
      (g.dependencies.lookup id).isNone) = false := by
    rw [List.any_eq_false]
    intro id hid
    rcases Option.isSome_iff_exists.1 (hlk id hid) with ⟨v, hv⟩
    simp [hv]
  have hfilter : ((g.tasks.map Task.id).dedup.filter
      (fun id => depsDone g.dependencies [] id)) = [] := by
    rw [List.filter_eq_nil_iff]
    intro id hid hdone
    have hall := (depsDone_iff g.dependencies [] id).1 hdone
    obtain ⟨d, hd⟩ := List.exists_mem_of_ne_nil _ (hstuck id hid)
    exact absurd (hall d hd) (List.not_mem_nil d)
  simp only [hre, hany, hfilter, Bool.false_eq_true, if_false]
  simp

/-- Witness for the amended C2 at the concrete two-cycle graph. -/
theorem claim2_amended_witness :
    (cyclicGraph.tasks.map Task.id).dedup ≠ [] ∧
      (∀ id ∈ (cyclicGraph.tasks.map Task.id).dedup,
        (cyclicGraph.dependencies.lookup id).isSome = true) ∧
      (∀ id ∈ (cyclicGraph.tasks.map Task.id).dedup,
        getDeps cyclicGraph.dependencies id ≠ []) ∧
      cyclicGraph.execution_levels =
        ExecResult.panicked "Circular dependency detected!" :=
  ⟨by decide, by decide, by decide,
    claim2_amended_cycle_panics cyclicGraph (by decide) (by decide) (by decide)⟩

/-- C3: with `id` fields equal to positions, `execution_levels` returns a
partition of the ids `0 .. N-1` — every id lies in some level, no id lies
in two distinct levels — and for every task in level `k` each of its
recorded dependencies lies in some level strictly below `k`. -/
theorem claim3_partition_and_soundness (tasks : List Task)
    (h : idsMatchPositions tasks = true) :
    ∃ levels : List (List TaskId),
      (DependencyGraph.from_tasks tasks).execution_levels = .ok levels ∧
      (∀ i : TaskId, (∃ L ∈ levels, i ∈ L) ↔ i < tasks.length) ∧
      (∀ k₁ k₂ (hk₁ : k₁ < levels.length) (hk₂ : k₂ < levels.length)
        (i : TaskId), i ∈ levels.get ⟨k₁, hk₁⟩ → i ∈ levels.get ⟨k₂, hk₂⟩ →
          k₁ = k₂) ∧
      (∀ k (hk : k < levels.length), ∀ i ∈ levels.get ⟨k, hk⟩,
        ∀ d ∈ getDeps (DependencyGraph.from_tasks tasks).dependencies i,
          ∃ k', ∃ hk' : k' < levels.length, k' < k ∧ d ∈ levels.get ⟨k', hk'⟩) := by
  obtain ⟨levels, hrun, hlen, hne, hflat, hchar⟩ := execution_levels_spec tasks h
  refine ⟨levels, hrun, ?_, ?_, ?_⟩
  · intro i
    rw [← hflat i, List.mem_flatten]
  · intro k₁ k₂ hk₁ hk₂ i h₁ h₂
    by_contra hne12
    rcases Nat.lt_or_ge k₁ k₂ with hlt | hge
    · have hB := ((hchar k₂ hk₂ i).1 h₂).2.2 k₁ hlt
      have hA := ((hchar k₁ hk₁ i).1 h₁).2.1
      exact hB hA
    · have hlt : k₂ < k₁ := Nat.lt_of_le_of_ne hge (fun e => hne12 e.symm)
      have hB := ((hchar k₁ hk₁ i).1 h₁).2.2 k₂ hlt
      have hA := ((hchar k₂ hk₂ i).1 h₂).2.1
      exact hB hA
  · intro k hk i hi d hd
    have hA := ((hchar k hk i).1 hi).2.1
    have hmem := hA d hd
    rw [mem_flatten_take] at hmem
    exact hmem

/-- Witness for C3 at the spec's concrete scenario. -/
theorem claim3_witness :
    idsMatchPositions exampleTasks = true ∧
      ∃ levels, (DependencyGraph.from_tasks exampleTasks).execution_levels =
        .ok levels := by
  refine ⟨by decide, ?_⟩
  obtain ⟨levels, hrun, -, -, -⟩ :=
    claim3_partition_and_soundness exampleTasks (by decide)
  exact ⟨levels, hrun⟩

/-- C7: with `id` fields equal to positions, a task sits in level `k`
exactly when `k` is the first level index by which all of its dependencies
are covered by strictly earlier levels; membership in every level is
thereby uniquely determined by the input order and conflicts. -/
theorem claim7_earliest_placement (tasks : List Task)
    (h : idsMatchPositions tasks = true) :
    ∃ levels : List (List TaskId),
      (DependencyGraph.from_tasks tasks).execution_levels = .ok levels ∧
      ∀ k (hk : k < levels.length), ∀ i : TaskId,
        i ∈ levels.get ⟨k, hk⟩ ↔
          (i < tasks.length ∧
            (∀ d ∈ getDeps (DependencyGraph.from_tasks tasks).dependencies i,
              d ∈ (levels.take k).flatten) ∧
            (∀ k' < k,
              ¬ ∀ d ∈ getDeps (DependencyGraph.from_tasks tasks).dependencies i,
                d ∈ (levels.take k').flatten)) := by
  obtain ⟨levels, hrun, -, -, -, hchar⟩ := execution_levels_spec tasks h
  exact ⟨levels, hrun, hchar⟩

/-- Witness for C7 at the spec's concrete scenario. -/
theorem claim7_witness :
    idsMatchPositions exampleTasks = true ∧
      ∃ levels, (DependencyGraph.from_tasks exampleTasks).execution_levels =
        .ok levels ∧ 0 < levels.length := by
  refine ⟨by decide, ?_⟩
  obtain ⟨levels, hrun, hchar⟩ := claim7_earliest_placement exampleTasks (by decide)
  refine ⟨levels, hrun, ?_⟩
  by_contra hzero
  have hempty : levels = [] := by
    cases levels with
    | nil => rfl
    | cons L ls => exact absurd (Nat.succ_pos ls.length) hzero
  have hok : (DependencyGraph.from_tasks exampleTasks).execution_levels =
      .ok [[0, 1], [2]] := by
    simp +decide [DependencyGraph.execution_levels, levelsAux, exampleTasks,
      DependencyGraph.from_tasks]
  rw [hempty] at hrun
  rw [hok] at hrun
  injection hrun with hlist
  exact List.noConfusion hlist

/-- C8: with `id` fields equal to positions the leveling loop terminates
with a result: every produced level is nonempty (so each iteration
strictly shrinks the remaining set), and there are at most `N` levels,
i.e. at most `N` loop iterations. -/
theorem claim8_terminates_within_n (tasks : List Task)
    (h : idsMatchPositions tasks = true) :
    ∃ levels : List (List TaskId),
      (DependencyGraph.from_tasks tasks).execution_levels = .ok levels ∧
      (∀ L ∈ levels, L ≠ []) ∧
      levels.length ≤ tasks.length := by
  obtain ⟨levels, hrun, hlen, hne, -, -⟩ := execution_levels_spec tasks h
  exact ⟨levels, hrun, fun L hL => (hne L hL).1, hlen⟩

/-- Witness for C8 at the spec's concrete scenario. -/
theorem claim8_witness :
    idsMatchPositions exampleTasks = true ∧
      ∃ levels, (DependencyGraph.from_tasks exampleTasks).execution_levels =
        .ok levels ∧ levels.length ≤ exampleTasks.length := by
  refine ⟨by decide, ?_⟩
  obtain ⟨levels, hrun, -, hlen⟩ := claim8_terminates_within_n exampleTasks (by decide)
  exact ⟨levels, hrun, hlen⟩

/-- C1: with `id` fields equal to positions, two distinct tasks placed in
the same produced level never conflict, in either direction. -/
theorem claim1_levels_pairwise_nonconflicting (tasks : List Task)
    (h : idsMatchPositions tasks = true)
    (levels : List (List TaskId))
    (hex : (DependencyGraph.from_tasks tasks).execution_levels = .ok levels)
    (k : Nat) (hk : k < levels.length) (i j : TaskId)
    (hi : i ∈ levels.get ⟨k, hk⟩) (hj : j ∈ levels.get ⟨k, hk⟩)
    (hij : i ≠ j) :
    (tasks.getD i default).conflicts_with (tasks.getD j default) = false ∧
      (tasks.getD j default).conflicts_with (tasks.getD i default) = false := by
  obtain ⟨levels, hrun, hlen, hne, hflat, hchar⟩ := execution_levels_spec tasks h
  rw [hex] at hrun
  injection hrun with hlev
  subst hlev
  have key : ∀ a b : TaskId, a ∈ levels.get ⟨k, hk⟩ → b ∈ levels.get ⟨k, hk⟩ →
      b < a →
      (tasks.getD a default).conflicts_with (tasks.getD b default) = false := by
    intro a b ha hb hba
    by_contra hcon
    have hconf : (tasks.getD a default).conflicts_with (tasks.getD b default) =
        true := by
      simpa using hcon
    have haN : a < tasks.length := ((hchar k hk a).1 ha).1
    have hbdep : b ∈ getDeps (DependencyGraph.from_tasks tasks).dependencies a := by
      rw [from_tasks_getDeps tasks a haN]
      exact List.mem_filter.2 ⟨List.mem_range.2 hba, hconf⟩
    have hbflat : b ∈ (levels.take k).flatten :=
      ((hchar k hk a).1 ha).2.1 b hbdep
    rw [mem_flatten_take] at hbflat
    obtain ⟨k', hk', hkk, hbk'⟩ := hbflat
    have hA' : ∀ d ∈ getDeps (DependencyGraph.from_tasks tasks).dependencies b,
        d ∈ (levels.take k').flatten := ((hchar k' hk' b).1 hbk').2.1
    exact ((hchar k hk b).1 hb).2.2 k' hkk hA'
  rcases Nat.lt_or_ge i j with hlt | hge
  · have h1 := key j i hj hi hlt
    have h2 : (tasks.getD i default).conflicts_with (tasks.getD j default) =
        false := by
      rw [conflicts_with_symm]
      exact h1
    exact ⟨h2, h1⟩
  · have hlt : j < i := Nat.lt_of_le_of_ne hge (fun e => hij e.symm)
    have h1 := key i j hi hj hlt
    have h2 : (tasks.getD j default).conflicts_with (tasks.getD i default) =
        false := by
      rw [conflicts_with_symm]
      exact h1
    exact ⟨h1, h2⟩

/-- Witness for C1: tasks 0 and 1 share level 0 of the concrete scenario
and indeed do not conflict in either direction. -/
theorem claim1_witness :
    idsMatchPositions exampleTasks = true ∧
      ((exampleTasks.getD 0 default).conflicts_with
          (exampleTasks.getD 1 default) = false ∧
        (exampleTasks.getD 1 default).conflicts_with
          (exampleTasks.getD 0 default) = false) := by
  refine ⟨by decide, claim1_levels_pairwise_nonconflicting exampleTasks (by decide)
    [[0, 1], [2]] ?_ 0 (by decide) 0 1 (by decide) (by decide) (by decide)⟩
  simp +decide [DependencyGraph.execution_levels, levelsAux, exampleTasks,
    DependencyGraph.from_tasks]

end ParallelDeterminism
